import Mathlib

/-!
Verification of the PDF-to-Markdown block classifier of `ohmymarkdown`.

Shallow embedding of the core of `convert_pdf_to_markdown`
(`src/src-tauri/src/lib.rs`, lines 125-182): segmentation of extracted
PDF text into blocks at blank lines, heuristic heading classification,
and Markdown rendering.  Strings are modelled by Lean `String`; the
Rust byte length `str::len` is modelled by `String.utf8ByteSize`, and
the character-level operations (`trim`, `ends_with(char)`, line
splitting) are modelled on the underlying `List Char`.
-/

namespace OhMyMarkdown

/-- Model of Rust `str::trim`: drop leading and trailing whitespace
characters (`Char.isWhitespace` models `char::is_whitespace`; the inputs
relevant here only contain ASCII whitespace, where the two agree). -/
def trimmed (s : String) : String :=
  ⟨((s.data.dropWhile Char.isWhitespace).reverse.dropWhile Char.isWhitespace).reverse⟩

/-- Model of Rust `str::ends_with(c: char)`: the last character is `c`. -/
def endsWithChar (s : String) (c : Char) : Bool :=
  s.data.getLast? == some c

/-- Model of `block.join(" ")`: the block lines joined with a single space. -/
def joinSpace : List String → String
  | [] => ""
  | [s] => s
  | s :: r :: rest => s ++ " " ++ joinSpace (r :: rest)

/-- Splits a character list at every newline character; the final
segment (after the last newline) is always produced, even when empty. -/
def splitNewlines (acc : List Char) : List Char → List (List Char)
  | [] => [acc.reverse]
  | c :: rest =>
    if c = '\n' then acc.reverse :: splitNewlines [] rest
    else splitNewlines (c :: acc) rest

/-- Strip one trailing carriage return, as Rust `str::lines` does per line. -/
def stripCR (l : List Char) : List Char :=
  if l.getLast? = some '\r' then l.dropLast else l

/-- Model of Rust `str::lines` (as used in `text.lines().collect()`,
`lib.rs` line 133): split on `\n` as a terminator (no trailing empty
line) and strip a trailing `\r` from each line. -/
def rustLines (s : String) : List String :=
  let parts := splitNewlines [] s.data
  let parts := if parts.getLast? = some [] then parts.dropLast else parts
  parts.map (fun l => String.mk (stripCR l))

/-- The segmentation loop of `convert_pdf_to_markdown` (`lib.rs` lines
137-150): `blocks` is the output vector, `current` the open block; a
blank (trimmed-empty) line seals a non-empty `current` into `blocks`,
a non-blank line pushes its trimmed form onto `current`; at the end of
input a non-empty `current` is sealed as a final block. -/
def segLoop (blocks : List (List String)) (current : List String) :
    List String → List (List String)
  | [] => if current.isEmpty then blocks else blocks ++ [current]
  | line :: rest =>
    let t := trimmed line
    if t.data.isEmpty then
      if current.isEmpty then segLoop blocks current rest
      else segLoop (blocks ++ [current]) [] rest
    else segLoop blocks (current ++ [t]) rest

/-- Segmentation of a line sequence into blocks (`lib.rs` lines 134-150). -/
def segment (lines : List String) : List (List String) :=
  segLoop [] [] lines

/-- The heading predicate of `convert_pdf_to_markdown` (`lib.rs` lines
160-164): `is_short && no_ending_punct && is_single_block` computed on
the joined text of the block. -/
def isHeading (block : List String) : Bool :=
  let text := joinSpace block
  let is_short : Bool := text.utf8ByteSize < 80
  let no_ending_punct : Bool :=
    !(endsWithChar text '.') && !(endsWithChar text ',')
      && !(endsWithChar text ';') && !(endsWithChar text ':')
      && !(endsWithChar text '!') && !(endsWithChar text '?')
  let is_single_block : Bool := block.length ≤ 2
  is_short && no_ending_punct && is_single_block

/-- The rendering loop of `convert_pdf_to_markdown` (`lib.rs` lines
153-179): `result` is the output string; each block with non-empty
joined text appends (after a `"\n\n"` separator when `result` is
non-empty) either `"## " ++ text` or `text`, by the heading predicate. -/
def renderBlocks (result : String) : List (List String) → String
  | [] => result
  | block :: rest =>
    let text := joinSpace block
    if text.data.isEmpty then renderBlocks result rest
    else if isHeading block then
      renderBlocks ((if result.data.isEmpty then result else result ++ "\n\n") ++ "## " ++ text) rest
    else
      renderBlocks ((if result.data.isEmpty then result else result ++ "\n\n") ++ text) rest

/-- The pure core of `convert_pdf_to_markdown`: from extracted text to
the Markdown string (`lib.rs` lines 132-181). -/
def pdfTextToMarkdown (text : String) : String :=
  renderBlocks "" (segment (rustLines text))

/-- Full `convert_pdf_to_markdown` (`lib.rs` lines 125-182): the file
read and the PDF text extraction are external effects, passed in as an
`Except` value and an `Except`-returning function; each `?` propagates
the error after prefixing the French message, and the pure phase wraps
its result in `Ok`. -/
def convert_pdf_to_markdown (readFile : Except String (List UInt8))
    (extractText : List UInt8 → Except String String) : Except String String :=
  match readFile with
  | .error e => .error ("Impossible de lire le fichier: " ++ e)
  | .ok bytes =>
    match extractText bytes with
    | .error e => .error ("Erreur d'extraction du texte PDF: " ++ e)
    | .ok text => .ok (pdfTextToMarkdown text)

/-- Spec-side rendering of one block: `"## " ++ joined_text` for a
heading, `joined_text` for a paragraph. -/
def renderBlock (b : List String) : String :=
  if isHeading b then "## " ++ joinSpace b else joinSpace b

/-- The blocks the rendering loop actually emits: those whose joined
text is non-empty, each rendered by `renderBlock`. -/
def emitted (blocks : List (List String)) : List String :=
  (blocks.filter (fun b => !(joinSpace b).data.isEmpty)).map renderBlock

/-- Spec-side document assembly: the rendered blocks joined with exactly
`"\n\n"` between consecutive ones, no leading or trailing separator. -/
def joinSep : List String → String
  | [] => ""
  | [s] => s
  | s :: r :: rest => s ++ "\n\n" ++ joinSep (r :: rest)

/-- Spec-side segmentation, following the words of the spec's
`segment` operation: iterate lines in order with an accumulator; a
trimmed-empty line seals a non-empty accumulator into the output and
resets it, and otherwise does nothing; a trimmed-non-empty line appends
its trimmed form to the accumulator; at end of input a non-empty
accumulator is sealed as a final block. -/
def segmentSpecLoop (acc : List String) : List String → List (List String)
  | [] => if acc = [] then [] else [acc]
  | line :: rest =>
    let t := trimmed line
    if t.data = [] then
      if acc = [] then segmentSpecLoop [] rest
      else acc :: segmentSpecLoop [] rest
    else segmentSpecLoop (acc ++ [t]) rest

/-- Spec-side segmentation of a whole line sequence. -/
def segmentSpec (lines : List String) : List (List String) :=
  segmentSpecLoop [] lines

/-- The imperative segmentation loop is the output so far followed by
the spec-style loop on the remaining input. -/
theorem segLoop_eq_specLoop (lines : List String) : ∀ blocks current,
    segLoop blocks current lines = blocks ++ segmentSpecLoop current lines := by
  induction lines with
  | nil =>
    intro blocks current
    simp only [segLoop, segmentSpecLoop]
    cases current <;> simp [List.isEmpty]
  | cons line rest ih =>
    intro blocks current
    simp only [segLoop, segmentSpecLoop]
    by_cases ht : (trimmed line).data = []
    · simp only [ht, List.isEmpty_nil, if_pos rfl, List.isEmpty_iff]
      by_cases hc : current = []
      · simp [hc, ih]
      · simp [hc, ih]
    · have : (trimmed line).data.isEmpty = false := by
        simpa [List.isEmpty_iff] using ht
      simp [this, ht, ih]

/-- Every block produced by the spec-style loop is non-empty: blocks
are only sealed when the accumulator is non-empty. -/
theorem specLoop_mem_ne_nil (lines : List String) : ∀ acc b,
    b ∈ segmentSpecLoop acc lines → b ≠ [] := by
  induction lines with
  | nil =>
    intro acc b hb
    simp only [segmentSpecLoop] at hb
    by_cases hc : acc = []
    · simp [hc] at hb
    · simp only [if_neg hc, List.mem_singleton] at hb
      exact hb ▸ hc
  | cons line rest ih =>
    intro acc b hb
    simp only [segmentSpecLoop] at hb
    by_cases ht : (trimmed line).data = []
    · by_cases hc : acc = []
      · simp only [ht, hc, if_true, eq_self_iff_true, if_pos] at hb
        exact ih [] b hb
      · simp [ht, hc] at hb
        rcases hb with h | h
        · exact h ▸ hc
        · exact ih [] b h
    · simp only [if_neg ht] at hb
      exact ih (acc ++ [trimmed line]) b hb

/-- If every line of the input is blank after trimming, the spec-style
loop from the empty accumulator produces no blocks. -/
theorem specLoop_all_blank (lines : List String)
    (h : ∀ l ∈ lines, (trimmed l).data = []) :
    segmentSpecLoop [] lines = [] := by
  induction lines with
  | nil => simp [segmentSpecLoop]
  | cons line rest ih =>
    have hl : (trimmed line).data = [] := h line (by simp)
    simp only [segmentSpecLoop, hl, if_pos rfl]
    exact ih (fun l hl2 => h l (by simp [hl2]))

/-- Duplicating a blank line changes nothing for the spec-style loop. -/
theorem specLoop_dup_blank (b b' : String) (hb : (trimmed b).data = [])
    (hb' : (trimmed b').data = []) (l2 : List String) :
    ∀ (l1 : List String) acc,
    segmentSpecLoop acc (l1 ++ b :: b' :: l2) = segmentSpecLoop acc (l1 ++ b :: l2) := by
  intro l1
  induction l1 with
  | nil =>
    intro acc
    simp only [List.nil_append, segmentSpecLoop, hb, hb', if_pos rfl]
    by_cases hc : acc = [] <;> simp [hc, segmentSpecLoop, hb']
  | cons line rest ih =>
    intro acc
    simp only [List.cons_append, segmentSpecLoop]
    by_cases ht : (trimmed line).data = []
    · by_cases hc : acc = [] <;> simp [ht, hc, ih]
    · simp [ht, ih]

/-- C2: Segmentation follows the specified algorithm exactly: the
imperative loop of `convert_pdf_to_markdown` computes the same block
sequence as the spec's accumulator algorithm (trim each line; a blank
line seals a non-empty accumulator, a non-blank line appends its
trimmed form; a final non-empty accumulator is sealed at end of input),
so block order equals input order with no reordering or merging. -/
theorem segment_follows_spec_algorithm (lines : List String) :
    segment lines = segmentSpec lines := by
  simpa [segment, segmentSpec] using segLoop_eq_specLoop lines [] []

/-- C6: Inserting an additional blank line next to an existing blank
line leaves the segmentation result unchanged. -/
theorem segment_dup_blank_invariant (l1 l2 : List String) (b b' : String)
    (hb : (trimmed b).data = []) (hb' : (trimmed b').data = []) :
    segment (l1 ++ b :: b' :: l2) = segment (l1 ++ b :: l2) := by
  simp only [segment, segLoop_eq_specLoop, List.nil_append]
  exact specLoop_dup_blank b b' hb hb' l2 l1 []

/-- Witness for C6 at a concrete input. -/
theorem segment_dup_blank_invariant_witness :
    segment (["x"] ++ "" :: " " :: ["y"]) = segment (["x"] ++ "" :: ["y"]) :=
  segment_dup_blank_invariant ["x"] ["y"] "" " " (by decide) (by decide)

/-- C7: Every block in the segmentation result contains at least one
line; a block with zero lines is never produced. -/
theorem segment_blocks_nonempty (lines : List String) (b : List String)
    (hb : b ∈ segment lines) : 1 ≤ b.length := by
  rw [segment, segLoop_eq_specLoop, List.nil_append] at hb
  exact List.length_pos.mpr (specLoop_mem_ne_nil lines [] b hb)

/-- Witness for C7 at a concrete input. -/
theorem segment_blocks_nonempty_witness : 1 ≤ (["x"] : List String).length :=
  segment_blocks_nonempty [" x "] ["x"] (by decide)

/-- C8: Empty input produces empty output, and so does any input all
of whose lines are blank after trimming (in particular three newlines). -/
theorem empty_and_blank_inputs (text : String)
    (h : ∀ l ∈ rustLines text, (trimmed l).data = []) :
    pdfTextToMarkdown text = "" ∧ pdfTextToMarkdown "" = "" ∧
      pdfTextToMarkdown "\n\n\n" = "" := by
  refine ⟨?_, by decide, by decide⟩
  rw [pdfTextToMarkdown, segment, segLoop_eq_specLoop, List.nil_append,
    specLoop_all_blank (rustLines text) h]
  rfl

/-- Witness for C8 at a concrete whitespace-only input. -/
theorem empty_and_blank_inputs_witness : pdfTextToMarkdown " \n\t\n " = "" :=
  (empty_and_blank_inputs " \n\t\n " (by decide)).1


/-- C1: A block is classified as a Heading iff its joined text is
strictly shorter than 80 bytes, the joined text does not end in any of
`.` `,` `;` `:` `!` `?`, and the block has at most 2 lines; in
particular a single short line ending in `.` and a block of 3 short
unpunctuated lines are Paragraphs. -/
theorem heading_classification :
    (∀ block : List String,
      isHeading block = true ↔
        ((joinSpace block).utf8ByteSize < 80 ∧
         (∀ c ∈ ['.', ',', ';', ':', '!', '?'],
           (joinSpace block).data.getLast? ≠ some c) ∧
         block.length ≤ 2))
    ∧ isHeading ["Done."] = false
    ∧ isHeading ["one", "two", "three"] = false := by
  refine ⟨?_, by decide, by decide⟩
  intro block
  simp only [isHeading, endsWithChar, Bool.and_eq_true, Bool.not_eq_true',
    beq_eq_false_iff_ne, ne_eq, decide_eq_true_eq, List.forall_mem_cons,
    List.forall_mem_nil, and_true]
  tauto

/-- Witness for C1 at a concrete heading block. -/
theorem heading_classification_witness : isHeading ["Intro"] = true :=
  (heading_classification.1 ["Intro"]).mpr (by decide)

/-- C5: A single-line block of exactly 79 bytes ending in a letter is
a Heading; a single-line block of exactly 80 bytes is a Paragraph.
Length is the byte length of the joined string. -/
theorem heading_length_boundary :
    (∀ s : String, s.utf8ByteSize = 79 →
      (∃ c, s.data.getLast? = some c ∧ c.isAlpha = true) →
      isHeading [s] = true)
    ∧ (∀ s : String, s.utf8ByteSize = 80 → isHeading [s] = false) := by
  constructor
  · rintro s h79 ⟨c, hc, hca⟩
    have hne : ∀ p : Char, p.isAlpha = false → (s.data.getLast? == some p) = false := by
      intro p hp
      rw [hc, beq_eq_false_iff_ne]
      intro h
      rw [Option.some.injEq] at h
      rw [h, hp] at hca
      exact Bool.false_ne_true hca
    simp only [isHeading, joinSpace, endsWithChar, h79, List.length_singleton]
    simp [hne '.' (by decide), hne ',' (by decide), hne ';' (by decide),
      hne ':' (by decide), hne '!' (by decide), hne '?' (by decide)]
  · intro s h80
    simp [isHeading, joinSpace, h80]

/-- Witness for C5: 79 `a`s make a Heading, 80 `a`s make a Paragraph. -/
theorem heading_length_boundary_witness :
    isHeading [String.mk (List.replicate 79 'a')] = true ∧
      isHeading [String.mk (List.replicate 80 'a')] = false :=
  ⟨heading_length_boundary.1 (String.mk (List.replicate 79 'a')) (by decide)
      ⟨'a', by decide, by decide⟩,
    heading_length_boundary.2 (String.mk (List.replicate 80 'a')) (by decide)⟩

theorem strEmpty_append (s : String) : "" ++ s = s := rfl

/-- The document tail after the first emitted block: every further
rendered block preceded by the `"\n\n"` separator. -/
def glue : List String → String
  | [] => ""
  | r :: rs => "\n\n" ++ r ++ glue rs

theorem join_glue (r : String) (rs : List String) :
    r ++ glue rs = joinSep (r :: rs) := by
  induction rs generalizing r with
  | nil => simp [glue, joinSep, String.append_empty]
  | cons r2 rs ih =>
    show r ++ glue (r2 :: rs) = joinSep (r :: r2 :: rs)
    rw [joinSep, ← ih r2]
    apply String.ext
    simp [glue, String.data_append, List.append_assoc]

theorem emitted_cons_skip (b : List String) (rest : List (List String))
    (htext : (joinSpace b).data.isEmpty = true) :
    emitted (b :: rest) = emitted rest := by
  simp [emitted, List.filter_cons, htext]

theorem emitted_cons_keep (b : List String) (rest : List (List String))
    (htext : (joinSpace b).data.isEmpty = false) :
    emitted (b :: rest) = renderBlock b :: emitted rest := by
  simp [emitted, List.filter_cons, htext]

/-- Unrolling the rendering loop from a non-empty partial result. -/
theorem renderBlocks_acc (blocks : List (List String)) : ∀ result : String,
    result.data ≠ [] → renderBlocks result blocks = result ++ glue (emitted blocks) := by
  induction blocks with
  | nil =>
    intro result _
    simp [renderBlocks, emitted, glue, String.append_empty]
  | cons b rest ih =>
    intro result hres
    have hrese : result.data.isEmpty = false := by simpa [List.isEmpty_iff] using hres
    simp only [renderBlocks, hrese, Bool.false_eq_true, if_false]
    by_cases htext : (joinSpace b).data.isEmpty
    · rw [if_pos htext, emitted_cons_skip b rest htext]
      exact ih result hres
    · rw [Bool.not_eq_true] at htext
      have htextne : (joinSpace b).data ≠ [] := by
        simpa [List.isEmpty_iff] using htext
      rw [if_neg (by simp [htext]), emitted_cons_keep b rest htext]
      by_cases hh : isHeading b
      · rw [if_pos hh]
        have hne : (result ++ "\n\n" ++ "## " ++ joinSpace b).data ≠ [] := by
          simp [String.data_append]
        rw [ih _ hne]
        apply String.ext
        simp [glue, renderBlock, hh, String.data_append, List.append_assoc]
      · rw [if_neg hh]
        have hne : (result ++ "\n\n" ++ joinSpace b).data ≠ [] := by
          simp [String.data_append, htextne]
        rw [ih _ hne]
        apply String.ext
        simp [glue, renderBlock, hh, String.data_append, List.append_assoc]

/-- The rendering loop started from the empty result produces the
emitted blocks joined with the separator. -/
theorem renderBlocks_empty_eq (blocks : List (List String)) :
    renderBlocks "" blocks = joinSep (emitted blocks) := by
  induction blocks with
  | nil => rfl
  | cons b rest ih =>
    simp only [renderBlocks]
    by_cases htext : (joinSpace b).data.isEmpty
    · rw [if_pos htext, emitted_cons_skip b rest htext]
      exact ih
    · rw [Bool.not_eq_true] at htext
      have htextne : (joinSpace b).data ≠ [] := by
        simpa [List.isEmpty_iff] using htext
      rw [if_neg (by simp [htext]), emitted_cons_keep b rest htext]
      have hemp : ("" : String).data.isEmpty = true := rfl
      rw [if_pos hemp]
      by_cases hh : isHeading b
      · rw [if_pos hh, strEmpty_append]
        have hne : ("## " ++ joinSpace b).data ≠ [] := by
          simp [String.data_append]
        rw [renderBlocks_acc rest _ hne, join_glue]
        simp [renderBlock, hh]
      · rw [if_neg hh, strEmpty_append]
        rw [renderBlocks_acc rest _ htextne, join_glue]
        simp [renderBlock, hh]

/-- C3: The rendered document is the separator-join of the per-block
renders, where a Heading renders as exactly `"## "` followed by the
joined text and a Paragraph renders as exactly the joined text; `"##"`
is the only heading marker ever emitted. -/
theorem render_heading_marker (blocks : List (List String)) :
    renderBlocks "" blocks = joinSep (emitted blocks) ∧
    (∀ b, isHeading b = true → renderBlock b = "## " ++ joinSpace b) ∧
    (∀ b, isHeading b = false → renderBlock b = joinSpace b) :=
  ⟨renderBlocks_empty_eq blocks,
   fun b hb => by simp [renderBlock, hb],
   fun b hb => by simp [renderBlock, hb]⟩

/-- Witness for C3 at concrete blocks. -/
theorem render_heading_marker_witness :
    renderBlock ["Title"] = "## " ++ joinSpace ["Title"] ∧
      renderBlock ["Done."] = joinSpace ["Done."] :=
  ⟨(render_heading_marker [["Title"]]).2.1 ["Title"] (by decide),
   (render_heading_marker [["Done."]]).2.2 ["Done."] (by decide)⟩

theorem data_joinSep (rs : List String) :
    (joinSep rs).data = List.intercalate ['\n', '\n'] (rs.map String.data) := by
  induction rs with
  | nil => rfl
  | cons r rs ih =>
    cases rs with
    | nil => simp [joinSep, List.intercalate]
    | cons r2 rs2 =>
      rw [joinSep]
      simp only [List.map_cons, List.intercalate, List.intersperse_cons_cons,
        List.flatten_cons]
      rw [← List.intercalate] at *
      simp only [String.data_append, ih]
      simp [List.intercalate, List.map_cons, List.intersperse_cons_cons,
        List.append_assoc]

/-- C4: The rendered document is the emitted blocks concatenated in
order with exactly the two characters `"\n\n"` between consecutive
ones and no separator before the first or after the last. -/
theorem render_separator_exact (blocks : List (List String)) :
    (renderBlocks "" blocks).data =
      List.intercalate ['\n', '\n'] ((emitted blocks).map String.data) := by
  rw [renderBlocks_empty_eq]
  exact data_joinSep (emitted blocks)

/-- Trimming only removes characters at the two ends, and only
whitespace ones: the original character list is a whitespace prefix,
then the trimmed list unchanged, then a whitespace suffix. -/
theorem trimmed_data_decomp (s : String) :
    ∃ p q, s.data = p ++ (trimmed s).data ++ q ∧
      (∀ c ∈ p, c.isWhitespace = true) ∧ (∀ c ∈ q, c.isWhitespace = true) := by
  refine ⟨s.data.takeWhile Char.isWhitespace,
    ((s.data.dropWhile Char.isWhitespace).reverse.takeWhile Char.isWhitespace).reverse,
    ?_, fun c hc => List.mem_takeWhile_imp hc,
    fun c hc => List.mem_takeWhile_imp (List.mem_reverse.mp hc)⟩
  have h3 := List.takeWhile_append_dropWhile Char.isWhitespace
    (s.data.dropWhile Char.isWhitespace).reverse
  have h4 := congrArg List.reverse h3
  rw [List.reverse_append, List.reverse_reverse] at h4
  rw [List.append_assoc]
  conv_lhs => rw [← List.takeWhile_append_dropWhile Char.isWhitespace s.data]
  congr 1
  exact h4.symm

/-- Each line of a block occurs contiguously inside the joined text. -/
theorem line_sub_joinSpace (block : List String) (s : String) (hs : s ∈ block) :
    s.data <:+: (joinSpace block).data := by
  induction block with
  | nil => simp at hs
  | cons b rest ih =>
    cases rest with
    | nil =>
      rw [List.mem_singleton] at hs
      exact hs ▸ ⟨[], [], by simp [joinSpace]⟩
    | cons r2 rs =>
      rw [List.mem_cons] at hs
      rcases hs with h | h
      · refine ⟨[], ' ' :: (joinSpace (r2 :: rs)).data, ?_⟩
        simp [h, joinSpace, String.data_append]
      · obtain ⟨u, v, huv⟩ := ih h
        refine ⟨b.data ++ ' ' :: u, v, ?_⟩
        rw [joinSpace]
        simp only [String.data_append]
        rw [← huv]
        simp [List.append_assoc]

/-- Each member of a list occurs contiguously inside its separator join. -/
theorem elem_sub_joinSep (rs : List String) (r : String) (hr : r ∈ rs) :
    r.data <:+: (joinSep rs).data := by
  induction rs with
  | nil => simp at hr
  | cons r1 rest ih =>
    cases rest with
    | nil =>
      rw [List.mem_singleton] at hr
      exact hr ▸ ⟨[], [], by simp [joinSep]⟩
    | cons r2 rs2 =>
      rw [List.mem_cons] at hr
      rcases hr with h | h
      · refine ⟨[], '\n' :: '\n' :: (joinSep (r2 :: rs2)).data, ?_⟩
        simp [h, joinSep, String.data_append]
      · obtain ⟨u, v, huv⟩ := ih h
        refine ⟨r1.data ++ '\n' :: '\n' :: u, v, ?_⟩
        rw [joinSep]
        simp only [String.data_append]
        rw [← huv]
        simp [List.append_assoc]

/-- C9: Only leading and trailing whitespace of each line is removed:
the trimmed line is the original minus a whitespace prefix and suffix,
each line of a block occurs contiguously (interior spaces included) in
the block's joined text, and the joined text of every emitted block
occurs contiguously in the rendered document. -/
theorem interior_characters_preserved :
    (∀ s : String, ∃ p q, s.data = p ++ (trimmed s).data ++ q ∧
      (∀ c ∈ p, c.isWhitespace = true) ∧ (∀ c ∈ q, c.isWhitespace = true)) ∧
    (∀ (block : List String) (s : String), s ∈ block →
      s.data <:+: (joinSpace block).data) ∧
    (∀ (blocks : List (List String)) (b : List String), b ∈ blocks →
      (joinSpace b).data ≠ [] →
      (joinSpace b).data <:+: (renderBlocks "" blocks).data) := by
  refine ⟨trimmed_data_decomp, line_sub_joinSpace, ?_⟩
  intro blocks b hb hne
  rw [renderBlocks_empty_eq]
  have h1 : renderBlock b ∈ emitted blocks := by
    refine List.mem_map.mpr ⟨b, List.mem_filter.mpr ⟨hb, ?_⟩, rfl⟩
    simpa [List.isEmpty_iff] using hne
  have h2 : (joinSpace b).data <:+: (renderBlock b).data := by
    by_cases hh : isHeading b
    · exact ⟨'#' :: '#' :: [' '], [], by simp [renderBlock, hh, String.data_append]⟩
    · exact ⟨[], [], by simp [renderBlock, hh]⟩
  exact h2.trans (elem_sub_joinSep (emitted blocks) (renderBlock b) h1)

/-- Witness for C9 at a concrete trimmed line, block and document. -/
theorem interior_characters_preserved_witness :
    ("a  b").data <:+: (joinSpace ["a  b", "c"]).data :=
  interior_characters_preserved.2.1 ["a  b", "c"] "a  b" (by simp)

/-- C10: `convert_pdf_to_markdown` fails exactly when the file read or
the PDF text extraction fails; once extraction succeeds the pure phase
always returns `Ok`. -/
theorem error_iff_read_or_extract_fails (rf : Except String (List UInt8))
    (ex : List UInt8 → Except String String) :
    ((∃ e, convert_pdf_to_markdown rf ex = .error e) ↔
      ((∃ e, rf = .error e) ∨ (∃ bytes e, rf = .ok bytes ∧ ex bytes = .error e)))
    ∧ (∀ bytes text, rf = .ok bytes → ex bytes = .ok text →
        convert_pdf_to_markdown rf ex = .ok (pdfTextToMarkdown text)) := by
  constructor
  · cases rf with
    | error e => simp [convert_pdf_to_markdown]
    | ok bytes =>
      cases hex : ex bytes with
      | error e => simp [convert_pdf_to_markdown, hex]
      | ok text => simp [convert_pdf_to_markdown, hex]
  · intro bytes text hrf hex
    subst hrf
    simp [convert_pdf_to_markdown, hex]

/-- Witness for C10 on a successful read and extraction. -/
theorem error_iff_read_or_extract_fails_witness :
    convert_pdf_to_markdown (Except.ok []) (fun _ => Except.ok "Hi") =
      Except.ok (pdfTextToMarkdown "Hi") :=
  (error_iff_read_or_extract_fails (Except.ok [])
    (fun _ => Except.ok "Hi")).2 [] "Hi" rfl rfl

end OhMyMarkdown
